import Mathlib

/-!
Shallow embedding of `archivebot.py` (slack-archive-bot).

The archive store (sqlite table `messages`) is modelled as a `List Message`;
`UNIQUE(channel, timestamp) ON CONFLICT REPLACE` becomes `upsert`.
The directory resolver (`get_user_id` / `get_channel_id` / ... backed by the
Slack API) and the local-time rendering of `convert_timestamp` are external
collaborators, modelled as an `Env` of lookup functions.
`handle_query` is embedded at token level (`step`, `parseTokens`, `runParsed`,
`runTokens`) plus a string-level wrapper (`handle_query`) for
the lowercasing and whitespace split of the incoming event text.
SQL semantics used by the code are embedded directly:
  * `LIKE` (ASCII-case-insensitive, `%`/`_` wildcards, no ESCAPE) as
    `likeMatch`;
  * `ORDER BY timestamp asc|desc` (BINARY collation = code-point order on
    UTF-8 strings) as a stable insertion sort `sortBy`;
  * `cursor.fetchmany(n)` as `fetchmany` — the CPython loop stops after n
    appended rows only once the incremented counter equals n, which never
    happens for a non-positive n, so a non-positive size returns every row;
  * Python `int(...)` as `pyInt` (optional surrounding whitespace, optional
    sign, decimal digits with single underscores allowed between digits);
  * the SQLite lexing of the double-quoted pattern literal of line 167 as
    `dqToken`: since the free-text is interpolated with no escaping, a
    quote in it changes or invalidates the statement (`execSearch`).
-/

namespace ArchiveBot

/-- A row of the `messages` table: `(message, user, channel, timestamp)`. -/
structure Message where
  message : String
  user : String
  channel : String
  timestamp : String
deriving DecidableEq, Repr

/-- External collaborators: the directory resolver (`ENV` lookups after the
lazy on-miss refresh) and the local-time / strftime part of
`convert_timestamp`. -/
structure Env where
  user_id : String → Option String
  id_user : String → Option String
  channel_id : String → Option String
  id_channel : String → Option String
  render_ts : String → String

/-- The mutable locals of the parsing loop of `handle_query`. -/
structure PState where
  text : List String
  user : Option String
  channel : Option String
  sort : String
  limit : Int
  context : Int
deriving DecidableEq, Repr

/-- Initial parser state (lines 118-123 of the source). -/
def init : PState :=
  { text := [], user := none, channel := none, sort := "desc", limit := 10, context := 0 }

/-- What one `handle_query` invocation did: the strings passed to
`chat.postMessage`, and how many `SELECT` queries ran against `messages`. -/
structure RunResult where
  replies : List String
  searchCount : Nat
deriving DecidableEq, Repr

/-- Python `str.split(sep)` for a one-character separator: split at every
occurrence, keeping empty pieces. -/
def splitOnP (p : Char → Bool) : List Char → List (List Char)
  | [] => [[]]
  | c :: cs =>
    if p c then [] :: splitOnP p cs
    else
      match splitOnP p cs with
      | [] => [[c]]
      | g :: gs => (c :: g) :: gs

/-- Python `str.strip()`: drop whitespace from both ends. -/
def trimChars (l : List Char) : List Char :=
  ((l.dropWhile Char.isWhitespace).reverse.dropWhile Char.isWhitespace).reverse

/-- the lowercasing and whitespace split of the incoming event text: lowercase, then split on whitespace
runs, discarding empty pieces. -/
def pyTokenize (s : String) : List String :=
  ((splitOnP Char.isWhitespace (s.data.map Char.toLower)).filter (· ≠ [])).map String.mk

/-- Digit run of a Python integer literal: after the first digit, single
underscores may separate digits. -/
def pyDigits : Nat → List Char → Option Nat
  | acc, [] => some acc
  | acc, '_' :: rest =>
    match rest with
    | [] => none
    | d :: rest' => if d.isDigit then pyDigits (acc * 10 + (d.toNat - 48)) rest' else none
  | acc, d :: rest => if d.isDigit then pyDigits (acc * 10 + (d.toNat - 48)) rest else none

/-- Python `int(s)` on a decimal string: `some n` on success, `none` when a
`ValueError` would be raised. -/
def pyInt (s : String) : Option Int :=
  match trimChars s.data with
  | [] => none
  | '+' :: rest =>
    match rest with
    | [] => none
    | d :: rest' => if d.isDigit then (pyDigits (d.toNat - 48) rest').map Int.ofNat else none
  | '-' :: rest =>
    match rest with
    | [] => none
    | d :: rest' => if d.isDigit then (pyDigits (d.toNat - 48) rest').map (fun n => -(n : Int)) else none
  | d :: rest => if d.isDigit then (pyDigits (d.toNat - 48) rest).map Int.ofNat else none

/-- Fuel-indexed worker for the SQLite `LIKE` matcher; every recursive call
shrinks the pattern or the text, so the fuel is only a structural-recursion
device and never runs out when it starts above the summed lengths. -/
def likeAux : Nat → List Char → List Char → Bool
  | 0, _, _ => false
  | _ + 1, [], [] => true
  | _ + 1, [], _ :: _ => false
  | f + 1, p :: ps, [] => decide (p = '%') && likeAux f ps []
  | f + 1, p :: ps, t :: ts =>
    if p = '%' then likeAux f ps (t :: ts) || likeAux f (p :: ps) ts
    else (decide (p = '_') || decide (p.toLower = t.toLower)) && likeAux f ps ts

/-- SQLite `LIKE` (no ESCAPE clause): `%` matches any sequence, `_` any
single character, other characters compare ASCII-case-insensitively
(`Char.toLower` only folds ASCII capitals, exactly like the SQLite default). -/
def likeMatch (pat txt : List Char) : Bool :=
  likeAux (pat.length + txt.length + 1) pat txt

/-- Value cleanup of the from qualifier, line 139: remove every at-sign,
then strip surrounding whitespace. -/
def strip_at (v : String) : String := String.mk (trimChars (v.data.filter (· ≠ '@')))

/-- Value cleanup of the in qualifier, line 143: remove every hash sign,
then strip surrounding whitespace. -/
def strip_hash (v : String) : String := String.mk (trimChars (v.data.filter (· ≠ '#')))

/-- The qualifier dispatch of lines 138-162, for a token split into key and
value: the four recognized keys update the state or raise, every other key
is silently ignored. -/
def applyQualifier (env : Env) (st : PState) (k v : String) : Except String PState :=
  if k = "from" then
    match env.user_id (strip_at v) with
    | some u => .ok { st with user := some u }
    | none => .error ("User " ++ v ++ " not found")
  else if k = "in" then
    match env.channel_id (strip_hash v) with
    | some c => .ok { st with channel := some c }
    | none => .error ("Channel " ++ v ++ " not found")
  else if k = "sort" then
    if v = "asc" ∨ v = "desc" then .ok { st with sort := v }
    else .error ("Invalid sort order " ++ v)
  else if k = "limit" then
    match pyInt v with
    | some n => .ok { st with limit := n }
    | none => .error (v ++ " not a valid number")
  else if k = "context" then
    match pyInt v with
    | some n => .ok { st with context := if n < 0 then 0 else n }
    | none => .error (v ++ " not a valid number")
  else .ok st

/-- One iteration of the `for p in params` loop (lines 126-162): emoji
tokens go to `text` verbatim; otherwise the token is split at every `:`;
one piece is a free-text term, exactly two pieces are a qualifier, any
other number of pieces falls through both `if len(p)` tests and is
dropped. A `ValueError` is an `.error`. -/
def step (env : Env) (st : PState) (p : String) : Except String PState :=
  if 2 < p.length ∧ p.data.head? = some ':' ∧ p.data.getLast? = some ':' then
    .ok { st with text := st.text ++ [p] }
  else
    match (splitOnP (· == ':') p.data).map String.mk with
    | [t] => .ok { st with text := st.text ++ [t] }
    | [k, v] => applyQualifier env st k v
    | _ => .ok st

/-- Spec reading of the token rules (for comparison with `step`): a
non-emoji token holding at least one `:` is split at the FIRST `:` only,
the qualifier value being everything after it. -/
def stepFirstColon (env : Env) (st : PState) (p : String) : Except String PState :=
  if 2 < p.length ∧ p.data.head? = some ':' ∧ p.data.getLast? = some ':' then
    .ok { st with text := st.text ++ [p] }
  else
    match (splitOnP (· == ':') p.data).map String.mk with
    | [t] => .ok { st with text := st.text ++ [t] }
    | k :: vs => applyQualifier env st k (String.intercalate ":" vs)
    | [] => .ok st

/-- The whole parsing loop; the first `ValueError` aborts it. -/
def parseTokens (env : Env) (toks : List String) : Except String PState :=
  toks.foldlM (step env) init

/-- Joining the free-text terms with single spaces. -/
def joinSp (l : List String) : String := String.intercalate " " l

/-- Stable insertion into a sorted list (models SQLite `ORDER BY`). -/
def insertBy (le : Message → Message → Bool) (x : Message) : List Message → List Message
  | [] => [x]
  | y :: ys => if le x y then x :: y :: ys else y :: insertBy le x ys

/-- Stable insertion sort. -/
def sortBy (le : Message → Message → Bool) : List Message → List Message
  | [] => []
  | x :: xs => insertBy le x (sortBy le xs)

/-- SQLite BINARY collation on TEXT values, strict part: memcmp order on the
UTF-8 encodings, which coincides with lexicographic code-point order. -/
def ltChars : List Char → List Char → Bool
  | [], [] => false
  | [], _ :: _ => true
  | _ :: _, [] => false
  | a :: as, b :: bs =>
    if a.toNat < b.toNat then true
    else if b.toNat < a.toNat then false
    else ltChars as bs

/-- Strict BINARY comparison of two strings. -/
def strLt (a b : String) : Bool := ltChars a.data b.data

/-- Non-strict BINARY comparison of two strings. -/
def strLe (a b : String) : Bool := ! strLt b a

/-- Ascending `ORDER BY timestamp` (BINARY collation). -/
def ascLe (a b : Message) : Bool := strLe a.timestamp b.timestamp

/-- Descending `ORDER BY timestamp`. -/
def descLe (a b : Message) : Bool := strLe b.timestamp a.timestamp

/-- The ORDER BY timestamp clause, with `sort` being `asc` or `desc`. -/
def orderByTs (sort : String) (l : List Message) : List Message :=
  if sort = "asc" then sortBy ascLe l else sortBy descLe l

/-- The author equality filter is appended only when `user` is truthy
(line 168). -/
def userFilter (u : Option String) (m : Message) : Bool :=
  match u with
  | none => true
  | some uid => if uid = "" then true else m.user == uid

/-- The channel equality filter is appended only when `channel` is truthy
(line 170). -/
def chanFilter (c : Option String) (m : Message) : Bool :=
  match c with
  | none => true
  | some cid => if cid = "" then true else m.channel == cid

/-- Lexing of the double-quoted pattern of line 167 by SQLite: the region
interpolated between the enclosing quotes survives as one token value only
when every quote inside it is escaped by doubling, in which case each
doubled quote collapses to a single quote in the value; a lone quote ends
the token early, so the statement that reaches the store is no longer the
intended single-pattern query — for a plain quote in the free-text it is
invalid SQL and `cursor.execute` raises an OperationalError that the
`except ValueError` of line 195 never catches: the handler aborts. -/
def dqToken : List Char → Option (List Char)
  | [] => some []
  | c :: rest =>
    if c = '"' then
      match rest with
      | '"' :: rest2 => (dqToken rest2).map (fun l => '"' :: l)
      | _ => none
    else (dqToken rest).map (fun l => c :: l)

/-- The result set the main `SELECT` of lines 167-176 is intended to
produce, and does produce whenever the joined free-text needs no escaping
(no quote): `LIKE` filter on the pattern `"%" + " ".join(text) + "%"`,
optional equality filters, and `ORDER BY timestamp`. The executed outcome,
quote lexing included, is `execSearch` below. -/
def searchRows (store : List Message) (st : PState) : List Message :=
  orderByTs st.sort
    (store.filter (fun m =>
      likeMatch ("%" ++ joinSp st.text ++ "%").data m.message.data
        && userFilter st.user m && chanFilter st.channel m))

/-- Lines 167-176 as executed: when the interpolated pattern region lexes
as one double-quoted token (`dqToken`), the statement is the intended
query and returns the rows filtered with the (collapsed) pattern in the
requested order; otherwise the statement is not the intended query — for
the unpaired-quote inputs treated here it is invalid SQL, `cursor.execute`
raises, and the handler aborts with no rows. -/
def execSearch (store : List Message) (st : PState) : Option (List Message) :=
  match dqToken ("%" ++ joinSp st.text ++ "%").data with
  | none => none
  | some pat =>
    some (orderByTs st.sort
      (store.filter (fun m =>
        likeMatch pat m.message.data && userFilter st.user m && chanFilter st.channel m)))

/-- Model of `cursor.fetchmany(n)`: the CPython sqlite3 fetch loop stops only
once its incremented row counter equals n, which never happens for n below
one, so a non-positive size returns every row of the result set. -/
def fetchmany (n : Int) (l : List Message) : List Message :=
  if n ≤ 0 then l else l.take n.toNat

/-- The fetch of at most `limit` rows from the main query (line 177). -/
def resultsOf (store : List Message) (st : PState) : List Message :=
  fetchmany st.limit (searchRows store st)

/-- Line 184 + 187: the hit and the messages preceding it in its channel
(`timestamp <= hit`, `ORDER BY timestamp DESC`, `fetchmany(context + 1)`),
reversed back into chronological order. -/
def ctxBefore (store : List Message) (c t : String) (r : Int) : List Message :=
  (fetchmany (r + 1)
    (sortBy descLe (store.filter (fun m => m.channel == c && strLe m.timestamp t)))).reverse

/-- Lines 190-191: the messages following the hit (`timestamp > hit`,
`ORDER BY timestamp ASC`, `fetchmany(context)`). -/
def ctxAfter (store : List Message) (c t : String) (r : Int) : List Message :=
  fetchmany r
    (sortBy ascLe (store.filter (fun m => m.channel == c && strLt t m.timestamp)))

/-- The context block of one hit, as rows: before-part (hit included) then
after-part, both chronological. -/
def expandHit (store : List Message) (hit : Message) (r : Int) : List Message :=
  ctxBefore store hit.channel hit.timestamp r ++ ctxAfter store hit.channel hit.timestamp r

/-- Python percent-formatting of an optional value: `None` prints as the
four-letter string None. -/
def py_opt (o : Option String) : String :=
  match o with
  | some s => s
  | none => "None"

/-- Model of `format_results`: one line per row, ids resolved through the directory
(falling back to `None`), final string stripped. -/
def format_results (env : Env) (rows : List Message) : String :=
  String.mk (trimChars (String.join (rows.map (fun m =>
    m.message ++ " (@" ++ py_opt (env.id_user m.user) ++ " in #"
      ++ py_opt (env.id_channel m.channel) ++ ", " ++ env.render_ts m.timestamp ++ ") \n"))).data)

/-- The docstring of `handle_query` (its usage text). -/
def usage_doc : String :=
  "\n    Handles a DM to the bot that is requesting a search of the archives.\n\n"
  ++ "    Usage:\n\n"
  ++ "        <query> from:<user> in:<channel> sort:asc|desc limit:<number> context:<number>\n\n"
  ++ "        query: The text to search for.\n"
  ++ "        user: If you want to limit the search to one user, the username.\n"
  ++ "        channel: If you want to limit the search to one channel, the channel name.\n"
  ++ "        sort: Either asc if you want to search starting with the oldest messages,\n"
  ++ "            or desc if you want to start from the newest. Default desc.\n"
  ++ "        limit: The number of responses to return. Default 10.\n"
  ++ "        context: The number of messages before and after the found message to return. Default 0.\n    "

/-- Model of `send_slack_message`: an empty (falsy) message is replaced by the
no-results text before posting; returns what is posted. -/
def send_slack_message (m : String) : String :=
  if m = "" then "No results found " ++ usage_doc else m

/-- The separator between context blocks of different hits (line 182). -/
def blockSep : String := "\n=-=-=-=-=-=-=-=-=-=-=-=-=-=-=-=-\n"

/-- Lines 164-194 after a successful parse: the (unguarded) help reply,
the main query (whose statement may fail to be the intended one when the
free-text carries an unpaired quote — then nothing further is sent),
optional per-hit context expansion, and the final reply. -/
def runParsed (env : Env) (store : List Message) (st : PState) : RunResult :=
  let helpReplies := if joinSp st.text = "help" then [send_slack_message usage_doc] else []
  match execSearch store st with
  | none => { replies := helpReplies, searchCount := 0 }
  | some rows =>
    let res := fetchmany st.limit rows
    let msg_txt :=
      if st.context ≠ 0 then
        res.foldl (fun acc hit =>
          (if acc ≠ "" then acc ++ blockSep else acc)
            ++ format_results env (ctxBefore store hit.channel hit.timestamp st.context)
            ++ format_results env (ctxAfter store hit.channel hit.timestamp st.context)) ""
      else format_results env res
    { replies := helpReplies ++ [send_slack_message msg_txt],
      searchCount := 1 + (if st.context ≠ 0 then 2 * res.length else 0) }

/-- Body of `handle_query` on an already tokenized input: a `ValueError` is caught
and its text posted; no query reaches the store in that case. -/
def runTokens (env : Env) (store : List Message) (toks : List String) : RunResult :=
  match parseTokens env toks with
  | .error e => { replies := [send_slack_message e], searchCount := 0 }
  | .ok st => runParsed env store st

/-- Full `handle_query` from the raw event text. -/
def handle_query (env : Env) (store : List Message) (text : String) : RunResult :=
  runTokens env store (pyTokenize text)

/-- An inbound RTM event, with every field that `handle_message` may access
optional (`none` = the key is absent, so reading it raises `KeyError`). -/
structure Event where
  subtype : Option String
  text : Option String
  user : Option String
  channel : Option String
  ts : Option String
  username : Option String
  message_text : Option String
  prev_user : Option String
  prev_ts : Option String
deriving DecidableEq, Repr

/-- Lines 210-217: on an edit event (subtype message_changed) rewrite `text`, `user`
and `ts` from the edit payload; a missing key raises `KeyError` mid-way,
which is caught after the fields read so far were already assigned. -/
def applyChanged (e : Event) : Event :=
  match e.subtype with
  | none => e
  | some st =>
    if st = "message_changed" then
      match e.message_text with
      | none => e
      | some t =>
        let e1 := { e with text := some t }
        match e1.prev_user with
        | none => e1
        | some u =>
          let e2 := { e1 with user := some u }
          match e2.prev_ts with
          | none => e2
          | some ts => { e2 with ts := some ts }
    else e

/-- The INSERT into `messages` under
`UNIQUE(channel, timestamp) ON CONFLICT REPLACE`: the colliding row is
deleted and the new row appended. -/
def upsert (store : List Message) (m : Message) : List Message :=
  store.filter (fun x => !(x.channel == m.channel && x.timestamp == m.timestamp)) ++ [m]

/-- The archive-store effect of `handle_message` (lines 209-237): the DM
branch runs `handle_query`, which never writes; any uncaught `KeyError` /
`IndexError` on the way to the `INSERT` leaves the store unchanged (the
outer loop swallows it). -/
def handle_message (e : Event) (store : List Message) : List Message :=
  let e := applyChanged e
  match e.text with
  | none => store
  | some txt =>
    if e.username = some "bot" then store
    else
      match e.channel with
      | none => store
      | some c =>
        match c.data.head? with
        | none => store
        | some c0 =>
          if c0 = 'D' then store
          else
            match e.user with
            | none => store
            | some u =>
              match e.ts with
              | none => store
              | some t => upsert store ⟨txt, u, c, t⟩

/-- A directory resolver that knows nobody, and an identity clock — used to
instantiate theorems on closed inputs. -/
def env0 : Env :=
  { user_id := fun _ => none, id_user := fun _ => none,
    channel_id := fun _ => none, id_channel := fun _ => none,
    render_ts := fun t => t }

end ArchiveBot

namespace ArchiveBot

theorem string_mk_data (s : String) : String.mk s.data = s := by
  cases s
  rfl

theorem string_data_append (s t : String) : (s ++ t).data = s.data ++ t.data := by
  cases s
  cases t
  rfl

theorem string_ne_empty_of_data_cons {s : String} {c : Char} {l : List Char}
    (h : s.data = c :: l) : s ≠ "" := by
  intro he
  rw [he] at h
  exact List.noConfusion h

theorem splitOnP_ne_nil (p : Char → Bool) (l : List Char) : splitOnP p l ≠ [] := by
  induction l with
  | nil => simp [splitOnP]
  | cons c cs ih =>
    by_cases hc : p c
    · simp [splitOnP, hc]
    · simp only [splitOnP, hc, if_neg, Bool.false_eq_true, ite_false]
      cases hs : splitOnP p cs with
      | nil => exact absurd hs ih
      | cons g gs => simp

theorem splitOnP_length (p : Char → Bool) (l : List Char) :
    (splitOnP p l).length = l.countP p + 1 := by
  induction l with
  | nil => simp [splitOnP]
  | cons c cs ih =>
    by_cases hc : p c
    · simp [splitOnP, hc, List.countP_cons, ih]
    · simp only [splitOnP, hc, Bool.false_eq_true, ite_false, List.countP_cons, if_neg]
      cases hs : splitOnP p cs with
      | nil => exact absurd hs (splitOnP_ne_nil p cs)
      | cons g gs =>
        rw [hs] at ih
        simp at ih ⊢
        omega

theorem splitOnP_eq_single (p : Char → Bool) (l : List Char) (h : l.countP p = 0) :
    splitOnP p l = [l] := by
  induction l with
  | nil => rfl
  | cons c cs ih =>
    rw [List.countP_cons] at h
    have hc : p c = false := by
      by_cases hpc : p c
      · simp [hpc] at h
      · simpa using hpc
    have hcs : cs.countP p = 0 := by omega
    simp [splitOnP, hc, ih hcs]

theorem splitOnP_append_zero (p : Char → Bool) (l₁ l₂ : List Char) (h : l₁.countP p = 0) :
    splitOnP p (l₁ ++ l₂) = (l₁ ++ (splitOnP p l₂).headD []) :: (splitOnP p l₂).tail := by
  induction l₁ with
  | nil =>
    cases hs : splitOnP p l₂ with
    | nil => exact absurd hs (splitOnP_ne_nil p l₂)
    | cons g gs => simp [hs]
  | cons c cs ih =>
    rw [List.countP_cons] at h
    have hc : p c = false := by
      by_cases hpc : p c
      · simp [hpc] at h
      · simpa using hpc
    have hcs : cs.countP p = 0 := by omega
    simp [splitOnP, hc, ih hcs]

theorem splitColon_keyval (k v : String)
    (hk : k.data.countP (· == ':') = 0) (hv : v.data.countP (· == ':') = 0) :
    (splitOnP (· == ':') (k ++ ":" ++ v).data).map String.mk = [k, v] := by
  have hdata : (k ++ ":" ++ v).data = k.data ++ (':' :: v.data) := by
    rw [string_data_append, string_data_append]
    simp
  rw [hdata, splitOnP_append_zero _ _ _ hk]
  have h2 : splitOnP (· == ':') (':' :: v.data) = [] :: [v.data] := by
    simp [splitOnP, splitOnP_eq_single _ _ hv]
  rw [h2]
  simp [string_mk_data]

theorem step_qualifier (env : Env) (st : PState) (k v : String)
    (hk : k.data.countP (· == ':') = 0) (hv : v.data.countP (· == ':') = 0)
    (hhd : (k ++ ":" ++ v).data.head? ≠ some ':') :
    step env st (k ++ ":" ++ v) = applyQualifier env st k v := by
  unfold step
  rw [if_neg (fun h => hhd h.2.1), splitColon_keyval k v hk hv]

theorem foldlM_step_append (env : Env) (st : PState) (l₁ l₂ : List String) :
    List.foldlM (step env) st (l₁ ++ l₂)
      = (List.foldlM (step env) st l₁) >>= fun s => List.foldlM (step env) s l₂ := by
  induction l₁ generalizing st with
  | nil => rfl
  | cons a l₁ ih =>
    show (step env st a >>= fun s => List.foldlM (step env) s (l₁ ++ l₂)) = _
    cases h : step env st a with
    | error e => simp [List.foldlM_cons, h, Except.bind]
    | ok s1 => simp [List.foldlM_cons, h, Except.bind, ih s1]

theorem parseTokens_append (env : Env) (toks rest : List String) (st : PState)
    (h : parseTokens env toks = .ok st) :
    parseTokens env (toks ++ rest) = List.foldlM (step env) st rest := by
  unfold parseTokens at h ⊢
  rw [foldlM_step_append, h]
  rfl

end ArchiveBot

namespace ArchiveBot

theorem mem_insertBy (le : Message → Message → Bool) (x a : Message) (l : List Message) :
    a ∈ insertBy le x l ↔ a = x ∨ a ∈ l := by
  induction l with
  | nil => simp [insertBy]
  | cons y ys ih =>
    by_cases hle : le x y
    · simp [insertBy, hle]
    · simp [insertBy, hle, ih]
      tauto

theorem mem_sortBy (le : Message → Message → Bool) (a : Message) (l : List Message) :
    a ∈ sortBy le l ↔ a ∈ l := by
  induction l with
  | nil => simp [sortBy]
  | cons x xs ih => simp [sortBy, mem_insertBy, ih]

theorem insertBy_all_false (le : Message → Message → Bool) (x : Message) (l : List Message)
    (h : ∀ y ∈ l, le x y = false) : insertBy le x l = l ++ [x] := by
  induction l with
  | nil => rfl
  | cons y ys ih =>
    have hy : le x y = false := h y (by simp)
    simp [insertBy, hy, ih (fun z hz => h z (by simp [hz]))]

theorem ltChars_irrefl (l : List Char) : ltChars l l = false := by
  induction l with
  | nil => rfl
  | cons a as ih => simp [ltChars, ih]

theorem ltChars_asymm (l₁ l₂ : List Char) (h : ltChars l₁ l₂ = true) :
    ltChars l₂ l₁ = false := by
  induction l₁ generalizing l₂ with
  | nil =>
    cases l₂ with
    | nil => rfl
    | cons b bs => rfl
  | cons a as ih =>
    cases l₂ with
    | nil => exact absurd h (by simp [ltChars])
    | cons b bs =>
      by_cases h1 : a.toNat < b.toNat
      · simp [ltChars, h1, Nat.lt_asymm h1, Nat.ne_of_gt h1]
      · by_cases h2 : b.toNat < a.toNat
        · rw [ltChars, if_neg h1, if_pos h2] at h
          exact absurd h (by simp)
        · rw [ltChars, if_neg h1, if_neg h2] at h
          rw [ltChars, if_neg h2, if_neg h1]
          exact ih bs h

theorem strLt_irrefl (a : String) : strLt a a = false := ltChars_irrefl a.data

theorem strLt_asymm (a b : String) (h : strLt a b = true) : strLt b a = false :=
  ltChars_asymm a.data b.data h

theorem strLe_refl (a : String) : strLe a a = true := by
  simp [strLe, strLt_irrefl]

theorem strLe_of_strLt (a b : String) (h : strLt a b = true) : strLe a b = true := by
  simp [strLe, strLt_asymm a b h]

theorem strLe_flip_of_strLt (a b : String) (h : strLt a b = true) : strLe b a = false := by
  simp [strLe, h]

theorem sortBy_asc_of_sorted (l : List Message)
    (h : l.Pairwise (fun a b => strLt a.timestamp b.timestamp = true)) : sortBy ascLe l = l := by
  induction l with
  | nil => rfl
  | cons x xs ih =>
    rw [List.pairwise_cons] at h
    show insertBy ascLe x (sortBy ascLe xs) = x :: xs
    rw [ih h.2]
    cases xs with
    | nil => rfl
    | cons y ys =>
      have : ascLe x y = true :=
        strLe_of_strLt _ _ (h.1 y (by simp))
      simp [insertBy, this]

theorem sortBy_desc_of_sorted (l : List Message)
    (h : l.Pairwise (fun a b => strLt a.timestamp b.timestamp = true)) :
    sortBy descLe l = l.reverse := by
  induction l with
  | nil => rfl
  | cons x xs ih =>
    rw [List.pairwise_cons] at h
    show insertBy descLe x (sortBy descLe xs) = (x :: xs).reverse
    rw [ih h.2, insertBy_all_false]
    · simp
    · intro y hy
      rw [List.mem_reverse] at hy
      exact strLe_flip_of_strLt _ _ (h.1 y hy)

theorem fetchmany_of_nonpos (n : Int) (l : List Message) (h : n ≤ 0) : fetchmany n l = l :=
  if_pos h

theorem fetchmany_of_pos (n : Int) (l : List Message) (h : 0 < n) :
    fetchmany n l = l.take n.toNat :=
  if_neg (not_le.mpr h)

theorem mem_of_mem_fetchmany (n : Int) (a : Message) (l : List Message)
    (h : a ∈ fetchmany n l) : a ∈ l := by
  unfold fetchmany at h
  split at h
  · exact h
  · exact List.mem_of_mem_take h

theorem filter_decomp (p q : Message → Bool) (l : List Message) :
    l.filter (fun m => p m && q m) = (l.filter p).filter q := by
  induction l with
  | nil => rfl
  | cons m l ih =>
    by_cases hp : p m <;> by_cases hq : q m <;> simp [hp, hq, ih]

end ArchiveBot

namespace ArchiveBot

theorem likeAux_eq_of_lt (f₁ f₂ : Nat) (pat txt : List Char)
    (h₁ : pat.length + txt.length < f₁) (h₂ : pat.length + txt.length < f₂) :
    likeAux f₁ pat txt = likeAux f₂ pat txt := by
  induction f₁ generalizing f₂ pat txt with
  | zero => omega
  | succ g ih =>
    cases f₂ with
    | zero => omega
    | succ g₂ =>
      cases pat with
      | nil => cases txt <;> rfl
      | cons p ps =>
        cases txt with
        | nil =>
          simp only [likeAux]
          rw [ih g₂ ps [] (by simp only [List.length_cons, List.length_nil] at h₁ ⊢; omega)
            (by simp only [List.length_cons, List.length_nil] at h₂ ⊢; omega)]
        | cons t ts =>
          simp only [likeAux]
          rw [ih g₂ ps (t :: ts) (by simp only [List.length_cons] at h₁ ⊢; omega)
              (by simp only [List.length_cons] at h₂ ⊢; omega),
            ih g₂ (p :: ps) ts (by simp only [List.length_cons] at h₁ ⊢; omega)
              (by simp only [List.length_cons] at h₂ ⊢; omega),
            ih g₂ ps ts (by simp only [List.length_cons] at h₁ ⊢; omega)
              (by simp only [List.length_cons] at h₂ ⊢; omega)]

theorem likeAux_eq_likeMatch (f : Nat) (pat txt : List Char)
    (h : pat.length + txt.length < f) : likeAux f pat txt = likeMatch pat txt :=
  likeAux_eq_of_lt f (pat.length + txt.length + 1) pat txt h (by omega)

theorem likeMatch_nil (ts : List Char) : likeMatch [] ts = ts.isEmpty := by
  cases ts <;> rfl

theorem likeMatch_cons_nil (p : Char) (ps : List Char) :
    likeMatch (p :: ps) [] = (decide (p = '%') && likeMatch ps []) := by
  show likeAux _ _ _ = _
  simp only [likeAux]
  rw [likeAux_eq_likeMatch _ ps [] (by simp only [List.length_cons, List.length_nil]; omega)]

theorem likeMatch_cons_cons (p : Char) (ps : List Char) (t : Char) (ts : List Char) :
    likeMatch (p :: ps) (t :: ts)
      = if p = '%' then likeMatch ps (t :: ts) || likeMatch (p :: ps) ts
        else (decide (p = '_') || decide (p.toLower = t.toLower)) && likeMatch ps ts := by
  show likeAux _ _ _ = _
  simp only [likeAux]
  rw [likeAux_eq_likeMatch _ ps (t :: ts) (by simp only [List.length_cons]; omega),
    likeAux_eq_likeMatch _ (p :: ps) ts (by simp only [List.length_cons]; omega),
    likeAux_eq_likeMatch _ ps ts (by simp only [List.length_cons]; omega)]

/-- The free-text contains no `LIKE` metacharacter. -/
def noWild (l : List Char) : Prop := ∀ c ∈ l, c ≠ '%' ∧ c ≠ '_'

instance noWild_decidable (l : List Char) : Decidable (noWild l) :=
  inferInstanceAs (Decidable (∀ c ∈ l, c ≠ '%' ∧ c ≠ '_'))

theorem likeMatch_plain (s : List Char) (h : noWild s) (t : List Char) :
    likeMatch s t = true ↔ s.map Char.toLower = t.map Char.toLower := by
  induction s generalizing t with
  | nil =>
    cases t <;> simp [likeMatch_nil]
  | cons p ps ih =>
    have hp := h p (by simp)
    have htail : noWild ps := fun c hc => h c (by simp [hc])
    cases t with
    | nil => simp [likeMatch_cons_nil, hp.1]
    | cons t ts =>
      rw [likeMatch_cons_cons, if_neg hp.1]
      simp [hp.2, ih htail]

end ArchiveBot

namespace ArchiveBot

theorem applyQualifier_from (env : Env) (st : PState) (v : String) :
    applyQualifier env st "from" v
      = (match env.user_id (strip_at v) with
        | some u => .ok { st with user := some u }
        | none => .error ("User " ++ v ++ " not found")) := rfl

theorem applyQualifier_in (env : Env) (st : PState) (v : String) :
    applyQualifier env st "in" v
      = (match env.channel_id (strip_hash v) with
        | some c => .ok { st with channel := some c }
        | none => .error ("Channel " ++ v ++ " not found")) := rfl

theorem applyQualifier_sort (env : Env) (st : PState) (v : String) :
    applyQualifier env st "sort" v
      = (if v = "asc" ∨ v = "desc" then .ok { st with sort := v }
        else .error ("Invalid sort order " ++ v)) := rfl

theorem applyQualifier_limit (env : Env) (st : PState) (v : String) :
    applyQualifier env st "limit" v
      = (match pyInt v with
        | some n => .ok { st with limit := n }
        | none => .error (v ++ " not a valid number")) := rfl

theorem applyQualifier_context (env : Env) (st : PState) (v : String) :
    applyQualifier env st "context" v
      = (match pyInt v with
        | some n => .ok { st with context := if n < 0 then 0 else n }
        | none => .error (v ++ " not a valid number")) := rfl

theorem foldlM_single (env : Env) (st : PState) (tok : String) :
    List.foldlM (step env) st [tok] = step env st tok := by
  show (step env st tok >>= fun b => List.foldlM (step env) b []) = step env st tok
  cases h : step env st tok with
  | error e => rfl
  | ok s => rfl

theorem keytok_head_ne_colon (k v : String) (c : Char) (l : List Char)
    (hk : k.data = c :: l) (hc : c ≠ ':') :
    (k ++ ":" ++ v).data.head? ≠ some ':' := by
  rw [string_data_append, string_data_append, hk]
  simp [hc]

theorem parseTokens_snoc_qualifier (env : Env) (toks : List String) (st : PState) (k v : String)
    (hok : parseTokens env toks = .ok st)
    (hk : k.data.countP (· == ':') = 0) (hv : v.data.countP (· == ':') = 0)
    (hhd : (k ++ ":" ++ v).data.head? ≠ some ':') :
    parseTokens env (toks ++ [k ++ ":" ++ v]) = applyQualifier env st k v := by
  rw [parseTokens_append env toks _ st hok, foldlM_single,
    step_qualifier env st k v hk hv hhd]

theorem mem_orderByTs (s : String) (l : List Message) (m : Message) :
    m ∈ orderByTs s l ↔ m ∈ l := by
  unfold orderByTs
  split <;> rw [mem_sortBy]

/-- The token is a recognized-shape qualifier for the given key (splits into
exactly two pieces, the first being the key). -/
def isQualifier (key tok : String) : Bool :=
  match (splitOnP (· == ':') tok.data).map String.mk with
  | [k, _] => k == key
  | _ => false

theorem applyQualifier_preserves_limit (env : Env) (st st' : PState) (a b : String)
    (ha : a ≠ "limit") (h : applyQualifier env st a b = .ok st') : st'.limit = st.limit := by
  unfold applyQualifier at h
  by_cases h1 : a = "from"
  · rw [if_pos h1] at h
    cases henv : env.user_id (strip_at b) <;> rw [henv] at h
    · exact absurd h (by simp)
    · cases h; rfl
  · rw [if_neg h1] at h
    by_cases h2 : a = "in"
    · rw [if_pos h2] at h
      cases henv : env.channel_id (strip_hash b) <;> rw [henv] at h
      · exact absurd h (by simp)
      · cases h; rfl
    · rw [if_neg h2] at h
      by_cases h3 : a = "sort"
      · rw [if_pos h3] at h
        by_cases h4 : b = "asc" ∨ b = "desc"
        · rw [if_pos h4] at h; cases h; rfl
        · rw [if_neg h4] at h; exact absurd h (by simp)
      · rw [if_neg h3, if_neg ha] at h
        by_cases h5 : a = "context"
        · rw [if_pos h5] at h
          cases hpy : pyInt b <;> rw [hpy] at h
          · exact absurd h (by simp)
          · cases h; rfl
        · rw [if_neg h5] at h
          cases h; rfl

theorem step_preserves_limit (env : Env) (st st' : PState) (tok : String)
    (hq : isQualifier "limit" tok = false) (h : step env st tok = .ok st') :
    st'.limit = st.limit := by
  unfold step at h
  by_cases he : 2 < tok.length ∧ tok.data.head? = some ':' ∧ tok.data.getLast? = some ':'
  · rw [if_pos he] at h
    cases h; rfl
  · rw [if_neg he] at h
    unfold isQualifier at hq
    rcases hsp : (splitOnP (· == ':') tok.data).map String.mk with _ | ⟨a, _ | ⟨b, _ | ⟨c, r⟩⟩⟩ <;>
      rw [hsp] at h hq
    · cases h; rfl
    · cases h; rfl
    · have ha : a ≠ "limit" := by
        intro hcontra
        rw [hcontra] at hq
        simp at hq
      exact applyQualifier_preserves_limit env st st' a b ha h
    · cases h; rfl

theorem parse_limit_default (env : Env) (toks : List String) (st : PState)
    (hok : parseTokens env toks = .ok st)
    (hnl : ∀ tok ∈ toks, isQualifier "limit" tok = false) : st.limit = 10 := by
  suffices hgen : ∀ (l : List String) (s₀ s : PState),
      (∀ tok ∈ l, isQualifier "limit" tok = false) →
      List.foldlM (step env) s₀ l = .ok s → s.limit = s₀.limit by
    rw [hgen toks init st hnl hok]
    rfl
  intro l
  induction l with
  | nil =>
    intro s₀ s _ h
    cases h
    rfl
  | cons a l ih =>
    intro s₀ s hall h
    have hfold : (step env s₀ a >>= fun b => List.foldlM (step env) b l) = .ok s := h
    cases ha : step env s₀ a with
    | error e =>
      rw [ha] at hfold
      exact absurd hfold (by simp [Bind.bind, Except.bind])
    | ok s₁ =>
      rw [ha] at hfold
      have h₁ : List.foldlM (step env) s₁ l = .ok s := hfold
      rw [ih s₁ s (fun t ht => hall t (by simp [ht])) h₁,
        step_preserves_limit env s₀ s₁ a (hall a (by simp)) ha]

/-- At most one row per `(channel, timestamp)` key. -/
def UniqKeys (s : List Message) : Prop :=
  s.Pairwise (fun a b => ¬(a.channel = b.channel ∧ a.timestamp = b.timestamp))

instance UniqKeys_decidable (s : List Message) : Decidable (UniqKeys s) := by
  unfold UniqKeys
  infer_instance

theorem upsert_uniq (s : List Message) (m : Message) (h : UniqKeys s) :
    UniqKeys (upsert s m) := by
  unfold upsert UniqKeys
  rw [List.pairwise_append]
  refine ⟨h.filter _, List.pairwise_singleton _ _, ?_⟩
  intro x hx y hy
  rw [List.mem_singleton] at hy
  subst hy
  rw [List.mem_filter] at hx
  have hpred := hx.2
  intro hcontra
  rw [hcontra.1, hcontra.2] at hpred
  simp at hpred

theorem handle_message_uniq (e : Event) (s : List Message) (h : UniqKeys s) :
    UniqKeys (handle_message e s) := by
  simp only [handle_message]
  repeat' split
  all_goals first
    | exact h
    | exact upsert_uniq _ _ h

end ArchiveBot

namespace ArchiveBot

theorem step_context_neg3_eq (env : Env) (st : PState) :
    step env st "context:-3" = step env st "context:0" := rfl

/-- C9: a token longer than two characters that starts and ends with `:`
(an emoji literal such as `:fire:`) is appended verbatim to the free-text
terms and is never split into a qualifier key/value pair. -/
theorem C9_emoji_token_verbatim (env : Env) (st : PState) (tok : String)
    (h1 : 2 < tok.length) (h2 : tok.data.head? = some ':')
    (h3 : tok.data.getLast? = some ':') :
    step env st tok = .ok { st with text := st.text ++ [tok] } := by
  unfold step
  rw [if_pos ⟨h1, h2, h3⟩]

theorem C9_witness :
    (2 < (":fire:" : String).length ∧ (":fire:" : String).data.head? = some ':'
        ∧ (":fire:" : String).data.getLast? = some ':')
      ∧ step env0 init ":fire:" = .ok { init with text := init.text ++ [":fire:"] } :=
  ⟨by decide, C9_emoji_token_verbatim env0 init ":fire:" (by decide) (by decide) (by decide)⟩

/-- C3 counterexample: on the token `from:a:b` — more than one `:`, not an
emoji literal — the parser of the code leaves the state untouched, while
the split-at-first-`:` reading of the claim would treat it as a `from`
qualifier with value `a:b` and raise an unknown-user error. -/
theorem exists_three_cons {α : Type} (l : List α) (h : 3 ≤ l.length) :
    ∃ a b c r, l = a :: b :: c :: r := by
  cases l with
  | nil => simp only [List.length_nil] at h; omega
  | cons a l1 =>
    cases l1 with
    | nil => simp only [List.length_cons, List.length_nil] at h; omega
    | cons b l2 =>
      cases l2 with
      | nil => simp only [List.length_cons, List.length_nil] at h; omega
      | cons c r => exact ⟨a, b, c, r, rfl⟩

theorem C3_counterexample :
    step env0 init "from:a:b" = .ok init
      ∧ stepFirstColon env0 init "from:a:b" = .error "User a:b not found" :=
  ⟨rfl, rfl⟩

/-- C3 (amended): a token holding two or more `:` that is not an emoji
literal is dropped entirely — it is neither appended to the free-text terms
nor treated as a qualifier, and the parser state is unchanged. -/
theorem C3_multicolon_token_dropped (env : Env) (st : PState) (tok : String)
    (hc : 2 ≤ tok.data.countP (· == ':'))
    (hne : ¬(2 < tok.length ∧ tok.data.head? = some ':' ∧ tok.data.getLast? = some ':')) :
    step env st tok = .ok st := by
  unfold step
  rw [if_neg hne]
  have hlen : 3 ≤ ((splitOnP (· == ':') tok.data).map String.mk).length := by
    rw [List.length_map, splitOnP_length]
    omega
  obtain ⟨a, b, c, r, hsp⟩ := exists_three_cons _ hlen
  rw [hsp]

theorem C3_witness :
    (2 ≤ ("a:b:c" : String).data.countP (· == ':')
        ∧ ¬(2 < ("a:b:c" : String).length ∧ ("a:b:c" : String).data.head? = some ':'
              ∧ ("a:b:c" : String).data.getLast? = some ':'))
      ∧ step env0 init "a:b:c" = .ok init :=
  ⟨by decide, C3_multicolon_token_dropped env0 init "a:b:c" (by decide) (by decide)⟩

/-- C7: a `context` qualifier whose value parses as a negative integer is
clamped to 0 — a whole run on `... context:-3` is indistinguishable from
one on `... context:0` — while a value that does not parse as an integer
aborts the parse with the invalid-number error. -/
theorem C7_context_clamp_and_invalid :
    (∀ (env : Env) (store : List Message) (toks : List String),
        runTokens env store (toks ++ ["context:-3"])
          = runTokens env store (toks ++ ["context:0"]))
      ∧ (∀ (env : Env) (toks : List String) (st : PState) (v : String),
          parseTokens env toks = .ok st → pyInt v = none →
          v.data.countP (· == ':') = 0 →
          parseTokens env (toks ++ ["context" ++ ":" ++ v])
            = .error (v ++ " not a valid number")) := by
  constructor
  · intro env store toks
    have hpe : parseTokens env (toks ++ ["context:-3"])
        = parseTokens env (toks ++ ["context:0"]) := by
      unfold parseTokens
      rw [foldlM_step_append, foldlM_step_append]
      cases h : List.foldlM (step env) init toks with
      | error e => rfl
      | ok st =>
        show List.foldlM (step env) st ["context:-3"]
          = List.foldlM (step env) st ["context:0"]
        rw [foldlM_single, foldlM_single, step_context_neg3_eq]
    unfold runTokens
    rw [hpe]
  · intro env toks st v hok hpy hv
    rw [parseTokens_snoc_qualifier env toks st "context" v hok (by decide) hv
        (keytok_head_ne_colon "context" v 'c' "ontext".data rfl (by decide)),
      applyQualifier_context, hpy]

theorem C7_witness :
    (parseTokens env0 [] = .ok init ∧ pyInt "abc" = none
        ∧ ("abc" : String).data.countP (· == ':') = 0)
      ∧ parseTokens env0 ["context" ++ ":" ++ "abc"] = .error ("abc" ++ " not a valid number") :=
  ⟨⟨rfl, rfl, by decide⟩,
    C7_context_clamp_and_invalid.2 env0 [] init "abc" rfl rfl (by decide)⟩

/-- C6: a `from` qualifier whose (cleaned-up) name the directory resolver
cannot resolve aborts the parse with the unknown-user error; the error text
is posted verbatim as the only reply and no query is executed against the
archive store, whatever tokens follow. -/
theorem C6_unknown_user_aborts (env : Env) (store : List Message)
    (toks post : List String) (st : PState) (name : String)
    (hok : parseTokens env toks = .ok st)
    (hv : name.data.countP (· == ':') = 0)
    (hres : env.user_id (strip_at name) = none) :
    runTokens env store (toks ++ ("from" ++ ":" ++ name) :: post)
      = { replies := ["User " ++ name ++ " not found"], searchCount := 0 } := by
  have hstep : step env st ("from" ++ ":" ++ name)
      = .error ("User " ++ name ++ " not found") := by
    rw [step_qualifier env st "from" name (by decide) hv
        (keytok_head_ne_colon "from" name 'f' "rom".data rfl (by decide)),
      applyQualifier_from, hres]
  have hparse : parseTokens env (toks ++ ("from" ++ ":" ++ name) :: post)
      = .error ("User " ++ name ++ " not found") := by
    unfold parseTokens
    rw [foldlM_step_append]
    unfold parseTokens at hok
    rw [hok]
    show List.foldlM (step env) st (("from" ++ ":" ++ name) :: post) = _
    show (step env st ("from" ++ ":" ++ name) >>= fun b => List.foldlM (step env) b post) = _
    rw [hstep]
    rfl
  have hne : ("User " ++ name ++ " not found") ≠ "" := by
    apply string_ne_empty_of_data_cons (c := 'U')
      (l := ("ser " ++ name ++ " not found").data)
    rw [string_data_append, string_data_append, string_data_append, string_data_append,
      show ("User " : String).data = 'U' :: ("ser " : String).data from rfl]
    simp
  unfold runTokens
  rw [hparse]
  simp [send_slack_message, hne]

theorem C6_witness :
    (parseTokens env0 [] = .ok init ∧ ("ghost" : String).data.countP (· == ':') = 0
        ∧ env0.user_id (strip_at "ghost") = none)
      ∧ runTokens env0 [] ([] ++ ("from" ++ ":" ++ "ghost") :: [])
          = { replies := ["User " ++ "ghost" ++ " not found"], searchCount := 0 } :=
  ⟨⟨rfl, by decide, rfl⟩,
    C6_unknown_user_aborts env0 [] [] [] init "ghost" rfl (by decide) rfl⟩

end ArchiveBot

namespace ArchiveBot

/-- A directory resolver that maps every user name to `U1` and every channel
name to `G1`. -/
def envR : Env :=
  { user_id := fun _ => some "U1", id_user := fun _ => none,
    channel_id := fun _ => some "G1", id_channel := fun _ => none,
    render_ts := fun t => t }

/-- C10: when the same qualifier key occurs several times, tokens are
processed left to right and every occurrence overwrites the setting
unconditionally, so after appending one more qualifier token the resulting
query uses that last value, whatever the earlier tokens set. -/
theorem C10_last_qualifier_wins :
    (∀ (env : Env) (toks : List String) (st : PState) (v : String),
        parseTokens env toks = .ok st → (v = "asc" ∨ v = "desc") →
        parseTokens env (toks ++ ["sort" ++ ":" ++ v]) = .ok { st with sort := v })
      ∧ (∀ (env : Env) (toks : List String) (st : PState) (v : String) (n : Int),
          parseTokens env toks = .ok st → v.data.countP (· == ':') = 0 → pyInt v = some n →
          parseTokens env (toks ++ ["limit" ++ ":" ++ v]) = .ok { st with limit := n })
      ∧ (∀ (env : Env) (toks : List String) (st : PState) (v : String) (n : Int),
          parseTokens env toks = .ok st → v.data.countP (· == ':') = 0 → pyInt v = some n →
          parseTokens env (toks ++ ["context" ++ ":" ++ v])
            = .ok { st with context := if n < 0 then 0 else n })
      ∧ (∀ (env : Env) (toks : List String) (st : PState) (name uid : String),
          parseTokens env toks = .ok st → name.data.countP (· == ':') = 0 →
          env.user_id (strip_at name) = some uid →
          parseTokens env (toks ++ ["from" ++ ":" ++ name]) = .ok { st with user := some uid })
      ∧ (∀ (env : Env) (toks : List String) (st : PState) (name cid : String),
          parseTokens env toks = .ok st → name.data.countP (· == ':') = 0 →
          env.channel_id (strip_hash name) = some cid →
          parseTokens env (toks ++ ["in" ++ ":" ++ name]) = .ok { st with channel := some cid }) := by
  refine ⟨?_, ?_, ?_, ?_, ?_⟩
  · intro env toks st v hok hv
    have hcount : v.data.countP (· == ':') = 0 := by
      rcases hv with h | h <;> subst h <;> decide
    rw [parseTokens_snoc_qualifier env toks st "sort" v hok (by decide) hcount
        (keytok_head_ne_colon "sort" v 's' "ort".data rfl (by decide)),
      applyQualifier_sort, if_pos hv]
  · intro env toks st v n hok hcount hpy
    rw [parseTokens_snoc_qualifier env toks st "limit" v hok (by decide) hcount
        (keytok_head_ne_colon "limit" v 'l' "imit".data rfl (by decide)),
      applyQualifier_limit, hpy]
  · intro env toks st v n hok hcount hpy
    rw [parseTokens_snoc_qualifier env toks st "context" v hok (by decide) hcount
        (keytok_head_ne_colon "context" v 'c' "ontext".data rfl (by decide)),
      applyQualifier_context, hpy]
  · intro env toks st name uid hok hcount hres
    rw [parseTokens_snoc_qualifier env toks st "from" name hok (by decide) hcount
        (keytok_head_ne_colon "from" name 'f' "rom".data rfl (by decide)),
      applyQualifier_from, hres]
  · intro env toks st name cid hok hcount hres
    rw [parseTokens_snoc_qualifier env toks st "in" name hok (by decide) hcount
        (keytok_head_ne_colon "in" name 'i' "n".data rfl (by decide)),
      applyQualifier_in, hres]

theorem C10_witness :
    (parseTokens env0 ["sort" ++ ":" ++ "asc"] = .ok { init with sort := "asc" }
        ∧ (("desc" : String) = "asc" ∨ ("desc" : String) = "desc")
        ∧ ("5" : String).data.countP (· == ':') = 0 ∧ pyInt "5" = some 5
        ∧ ("alice" : String).data.countP (· == ':') = 0
        ∧ envR.user_id (strip_at "alice") = some "U1")
      ∧ parseTokens env0 (["sort" ++ ":" ++ "asc"] ++ ["sort" ++ ":" ++ "desc"])
          = .ok { { init with sort := "asc" } with sort := "desc" }
      ∧ parseTokens env0 ([] ++ ["limit" ++ ":" ++ "5"]) = .ok { init with limit := 5 }
      ∧ parseTokens envR ([] ++ ["from" ++ ":" ++ "alice"]) = .ok { init with user := some "U1" } :=
  ⟨⟨rfl, Or.inr rfl, by decide, rfl, by decide, rfl⟩,
    C10_last_qualifier_wins.1 env0 ["sort" ++ ":" ++ "asc"] { init with sort := "asc" } "desc"
      rfl (Or.inr rfl),
    C10_last_qualifier_wins.2.1 env0 [] init "5" 5 rfl (by decide) rfl,
    C10_last_qualifier_wins.2.2.2.1 envR [] init "alice" "U1" rfl (by decide) rfl⟩

/-- The one-row store used by the concrete counterexamples. -/
def store1 : List Message := [⟨"abc", "u", "C", "1"⟩]

/-- C8 counterexample: the parsed query `abc limit:0` has `limit = 0`, yet
its result sequence over a store holding one matching row is that row, not
the empty sequence — `fetchmany` with a non-positive size returns every
row. -/
theorem C8_counterexample :
    parseTokens env0 ["abc", "limit" ++ ":" ++ "0"]
        = .ok { init with text := ["abc"], limit := 0 }
      ∧ resultsOf store1 { init with text := ["abc"], limit := 0 } = [⟨"abc", "u", "C", "1"⟩]
      ∧ ([⟨"abc", "u", "C", "1"⟩] : List Message) ≠ [] :=
  ⟨rfl, rfl, by decide⟩

/-- C8 (amended): a query whose parsed limit is not positive (in particular
`limit:0`) is returned uncapped — the whole ordered result set of the main
query — while a token list containing no `limit` qualifier parses to the
default `limit = 10` and the result is capped at exactly 10 rows. -/
theorem C8_limit_zero_uncapped_default_ten :
    (∀ (store : List Message) (st : PState), st.limit ≤ 0 →
        resultsOf store st = searchRows store st)
      ∧ (∀ (env : Env) (toks : List String) (st : PState),
          parseTokens env toks = .ok st →
          (∀ tok ∈ toks, isQualifier "limit" tok = false) →
          st.limit = 10 ∧ ∀ store, resultsOf store st = (searchRows store st).take 10) := by
  constructor
  · intro store st h
    unfold resultsOf
    exact fetchmany_of_nonpos _ _ h
  · intro env toks st hok hnl
    have hl := parse_limit_default env toks st hok hnl
    refine ⟨hl, fun store => ?_⟩
    unfold resultsOf
    rw [hl, fetchmany_of_pos _ _ (by norm_num)]
    rfl

theorem C8_witness :
    ((⟨["abc"], none, none, "desc", 0, 0⟩ : PState).limit ≤ 0
        ∧ parseTokens env0 ["abc"] = .ok { init with text := ["abc"] }
        ∧ (∀ tok ∈ ["abc"], isQualifier "limit" tok = false))
      ∧ resultsOf store1 ⟨["abc"], none, none, "desc", 0, 0⟩
            = searchRows store1 ⟨["abc"], none, none, "desc", 0, 0⟩
      ∧ ({ init with text := ["abc"] } : PState).limit = 10
      ∧ ∀ store, resultsOf store { init with text := ["abc"] }
            = (searchRows store { init with text := ["abc"] }).take 10 :=
  ⟨⟨by decide, rfl, by decide⟩,
    C8_limit_zero_uncapped_default_ten.1 store1 ⟨["abc"], none, none, "desc", 0, 0⟩ (by decide),
    (C8_limit_zero_uncapped_default_ten.2 env0 ["abc"] { init with text := ["abc"] } rfl
      (by decide)).1,
    (C8_limit_zero_uncapped_default_ten.2 env0 ["abc"] { init with text := ["abc"] } rfl
      (by decide)).2⟩

/-- C2: on the input `help` the handler does send the usage text, but —
there being no early return after the help branch — it still executes the
archive search (one `SELECT` runs) and sends a second reply with the
search outcome; over an empty store that second reply is the no-results
text. -/
theorem C2_help_still_searches :
    runTokens env0 [] ["help"]
      = { replies := [usage_doc, "No results found " ++ usage_doc], searchCount := 1 } := rfl

end ArchiveBot

namespace ArchiveBot

theorem upsert_key_rows (s : List Message) (m : Message) :
    (upsert s m).filter (fun x => x.channel == m.channel && x.timestamp == m.timestamp)
      = [m] := by
  unfold upsert
  rw [List.filter_append]
  have h1 : (s.filter (fun x => !(x.channel == m.channel && x.timestamp == m.timestamp))).filter
      (fun x => x.channel == m.channel && x.timestamp == m.timestamp) = [] := by
    rw [List.filter_eq_nil_iff]
    intro x hx
    rw [List.mem_filter] at hx
    have := hx.2
    intro hcontra
    rw [hcontra] at this
    simp at this
  rw [h1]
  simp

/-- C4: the store keeps at most one row per `(channel, timestamp)` after any
sequence of ingestion events; ingesting an edit event for an existing key
replaces the stored row in place (old row deleted, new text/author stored
under the original key), the key-uniqueness invariant is preserved, and no
subsequent search — whatever the query and fetch size — can return the old
version once the text changed. -/
theorem C4_edit_replaces_in_place :
    (∀ evs : List Event, UniqKeys (evs.foldl (fun s e => handle_message e s) []))
      ∧ (∀ (s : List Message) (old : Message) (e : Event) (newTxt newUser : String) (c0 : Char),
          UniqKeys s → old ∈ s →
          e.subtype = some "message_changed" →
          e.message_text = some newTxt →
          e.prev_user = some newUser →
          e.prev_ts = some old.timestamp →
          e.channel = some old.channel →
          e.username ≠ some "bot" →
          old.channel.data.head? = some c0 → c0 ≠ 'D' →
          handle_message e s = upsert s ⟨newTxt, newUser, old.channel, old.timestamp⟩
            ∧ (handle_message e s).filter
                (fun x => x.channel == old.channel && x.timestamp == old.timestamp)
                = [⟨newTxt, newUser, old.channel, old.timestamp⟩]
            ∧ UniqKeys (handle_message e s)
            ∧ (old.message ≠ newTxt →
                ∀ (st : PState) (L : Int),
                  old ∉ fetchmany L (searchRows (handle_message e s) st))) := by
  constructor
  · intro evs
    suffices hgen : ∀ (l : List Event) (s : List Message), UniqKeys s →
        UniqKeys (l.foldl (fun s e => handle_message e s) s) by
      exact hgen evs [] (List.Pairwise.nil)
    intro l
    induction l with
    | nil => intro s hs; exact hs
    | cons e l ih =>
      intro s hs
      exact ih (handle_message e s) (handle_message_uniq e s hs)
  · intro s old e newTxt newUser c0 hu hold hsub hmt hpu hpt hch hbot hhd hD
    have happ : applyChanged e
        = { e with text := some newTxt, user := some newUser, ts := some old.timestamp } := by
      simp [applyChanged, hsub, hmt, hpu, hpt]
    have hstore : handle_message e s
        = upsert s ⟨newTxt, newUser, old.channel, old.timestamp⟩ := by
      simp only [handle_message, happ]
      simp [hch, hbot, hhd, hD]
    refine ⟨hstore, ?_, ?_, ?_⟩
    · rw [hstore]
      exact upsert_key_rows s ⟨newTxt, newUser, old.channel, old.timestamp⟩
    · rw [hstore]
      exact upsert_uniq _ _ hu
    · intro hne st L hmem
      rw [hstore] at hmem
      have h1 : old ∈ searchRows (upsert s ⟨newTxt, newUser, old.channel, old.timestamp⟩) st :=
        mem_of_mem_fetchmany _ _ _ hmem
      unfold searchRows at h1
      rw [mem_orderByTs, List.mem_filter] at h1
      have h2 := h1.1
      unfold upsert at h2
      rw [List.mem_append] at h2
      rcases h2 with h2 | h2
      · rw [List.mem_filter] at h2
        have := h2.2
        simp at this
      · rw [List.mem_singleton] at h2
        exact hne (congrArg Message.message h2)
  
end ArchiveBot

namespace ArchiveBot

/-- An edit event: subtype message_changed, new text `new`, previous author
`u2`, original key `(CH, 5)`. -/
def evEdit : Event :=
  ⟨some "message_changed", some "raw", some "u0", some "CH", some "9",
    none, some "new", some "u2", some "5"⟩

theorem C4_witness :
    (UniqKeys [(⟨"old", "u1", "CH", "5"⟩ : Message)]
        ∧ (⟨"old", "u1", "CH", "5"⟩ : Message) ∈ [(⟨"old", "u1", "CH", "5"⟩ : Message)]
        ∧ ("old" : String) ≠ "new")
      ∧ handle_message evEdit [⟨"old", "u1", "CH", "5"⟩]
          = upsert [⟨"old", "u1", "CH", "5"⟩] ⟨"new", "u2", "CH", "5"⟩
      ∧ (handle_message evEdit [⟨"old", "u1", "CH", "5"⟩]).filter
          (fun x => x.channel == "CH" && x.timestamp == "5") = [⟨"new", "u2", "CH", "5"⟩]
      ∧ UniqKeys (handle_message evEdit [⟨"old", "u1", "CH", "5"⟩])
      ∧ ∀ (st : PState) (L : Int),
          (⟨"old", "u1", "CH", "5"⟩ : Message)
            ∉ fetchmany L (searchRows (handle_message evEdit [⟨"old", "u1", "CH", "5"⟩]) st) := by
  have h := C4_edit_replaces_in_place.2 [⟨"old", "u1", "CH", "5"⟩] ⟨"old", "u1", "CH", "5"⟩
    evEdit "new" "u2" 'C' (List.pairwise_singleton _ _) (by simp) rfl rfl rfl rfl rfl
    (by decide) rfl (by decide)
  exact ⟨⟨List.pairwise_singleton _ _, by simp, by decide⟩,
    h.1, h.2.1, h.2.2.1, h.2.2.2 (by decide)⟩

/-- C5: with the channel messages of the store strictly increasing in
timestamp and decomposed as `pre ++ hit :: post`, context expansion with a
positive radius returns the last `r` messages of `pre`, then the hit, then
the first `r` messages of `post` — the whole block in ascending timestamp
order; on a five-message channel with the hit in the middle and radius 1
this is exactly the block of the three middle messages. -/
theorem C5_context_window (store : List Message) (hit : Message)
    (pre post : List Message) (r : Int)
    (hr : 0 < r)
    (hchain : (pre ++ hit :: post).Pairwise (fun a b => strLt a.timestamp b.timestamp = true))
    (hfilter : store.filter (fun m => m.channel == hit.channel) = pre ++ hit :: post) :
    expandHit store hit r
      = pre.drop (pre.length - r.toNat) ++ hit :: post.take r.toNat := by
  rw [List.pairwise_append] at hchain
  have hpre_lt : ∀ m ∈ pre, strLt m.timestamp hit.timestamp = true :=
    fun m hm => hchain.2.2 m hm hit (by simp)
  have hpost_lt : ∀ m ∈ post, strLt hit.timestamp m.timestamp = true :=
    (List.pairwise_cons.mp hchain.2.1).1
  have hBfilter : store.filter (fun m => m.channel == hit.channel && strLe m.timestamp hit.timestamp)
      = pre ++ [hit] := by
    rw [filter_decomp, hfilter, List.filter_append]
    have h1 : pre.filter (fun m => strLe m.timestamp hit.timestamp) = pre :=
      List.filter_eq_self.mpr (fun m hm => strLe_of_strLt _ _ (hpre_lt m hm))
    have h2 : post.filter (fun m => strLe m.timestamp hit.timestamp) = [] := by
      rw [List.filter_eq_nil_iff]
      intro m hm hcontra
      rw [strLe_flip_of_strLt _ _ (hpost_lt m hm)] at hcontra
      exact Bool.false_ne_true hcontra
    rw [h1, List.filter_cons, h2]
    simp [strLe_refl]
  have hAfilter : store.filter (fun m => m.channel == hit.channel && strLt hit.timestamp m.timestamp)
      = post := by
    rw [filter_decomp, hfilter, List.filter_append]
    have h1 : pre.filter (fun m => strLt hit.timestamp m.timestamp) = [] := by
      rw [List.filter_eq_nil_iff]
      intro m hm hcontra
      rw [strLt_asymm _ _ (hpre_lt m hm)] at hcontra
      exact Bool.false_ne_true hcontra
    have h2 : post.filter (fun m => strLt hit.timestamp m.timestamp) = post :=
      List.filter_eq_self.mpr (fun m hm => hpost_lt m hm)
    rw [h1, List.filter_cons, h2]
    simp [strLt_irrefl]
  have hpre_sorted : (pre ++ [hit]).Pairwise (fun a b => strLt a.timestamp b.timestamp = true) := by
    rw [List.pairwise_append]
    refine ⟨hchain.1, List.pairwise_singleton _ _, ?_⟩
    intro a ha b hb
    rw [List.mem_singleton] at hb
    subst hb
    exact hpre_lt a ha
  have hpost_sorted : post.Pairwise (fun a b => strLt a.timestamp b.timestamp = true) :=
    (List.pairwise_cons.mp hchain.2.1).2
  unfold expandHit ctxBefore ctxAfter
  rw [hBfilter, hAfilter, sortBy_desc_of_sorted _ hpre_sorted,
    sortBy_asc_of_sorted _ hpost_sorted,
    fetchmany_of_pos _ _ (by omega), fetchmany_of_pos _ _ hr]
  have h1 : (pre ++ [hit]).reverse = hit :: pre.reverse := by simp
  rw [h1, show (r + 1).toNat = r.toNat + 1 by omega, List.take_succ_cons, List.reverse_cons,
    List.take_reverse, List.reverse_reverse]
  simp

end ArchiveBot

namespace ArchiveBot

/-- The five messages of the context scenario, one channel, strictly
increasing timestamps. -/
def msg1 : Message := ⟨"m1", "u", "C", "1"⟩

def msg2 : Message := ⟨"m2", "u", "C", "2"⟩

def msg3 : Message := ⟨"m3", "u", "C", "3"⟩

def msg4 : Message := ⟨"m4", "u", "C", "4"⟩

def msg5 : Message := ⟨"m5", "u", "C", "5"⟩

/-- The five-message channel of the context scenario plus one row in
another channel. -/
def store5 : List Message :=
  [msg1, msg2, msg3, msg4, msg5, ⟨"zz", "u", "Z", "2"⟩]

theorem C5_witness :
    ((0 : Int) < 1
        ∧ ([msg1, msg2] ++ msg3 :: [msg4, msg5]).Pairwise
            (fun a b => strLt a.timestamp b.timestamp = true)
        ∧ store5.filter (fun m => m.channel == msg3.channel) = [msg1, msg2] ++ msg3 :: [msg4, msg5])
      ∧ expandHit store5 msg3 1 = [msg2, msg3, msg4] := by
  constructor
  · exact ⟨by decide, by decide, rfl⟩
  · exact C5_context_window store5 msg3 [msg1, msg2] [msg4, msg5] 1 (by decide) (by decide) rfl

end ArchiveBot
